import Mathlib

/-!
Verification of the CodePatternMaster backend (src/backend of the repository):
the deterministic code-output simulator (src/backend/code_execution.py), the
feedback scorer and pattern catalog (src/backend/main.py).

Python strings are modelled as `List Char`; the simulators build their output
by appending one `List Char` chunk per Python `output += ... + "\n"` statement.
Python `re.findall` over the literal-extraction patterns is modelled by an
explicit left-to-right scan with non-overlapping continuation; the bounded
iteration uses a fuel argument that is always called with the length of the
scanned text, which is an upper bound on the number of scan steps, so the
fuel never runs out and the model computes exactly the findall result.
Python `str.lower` is modelled by `Char.toLower` (the catalog is ASCII).
Float scores are modelled as exact rationals.
-/

/-- `listIsPrefixOf p l` holds when `p` is an initial segment of `l`
(model of Python string prefix testing used below). -/
def listIsPrefixOf : List Char → List Char → Bool
  | [], _ => true
  | _ :: _, [] => false
  | a :: as, b :: bs => a = b && listIsPrefixOf as bs

/-- `listIsInfixOf p l` models the Python substring test `p in l`. -/
def listIsInfixOf (p : List Char) : List Char → Bool
  | [] => listIsPrefixOf p []
  | c :: cs => listIsPrefixOf p (c :: cs) || listIsInfixOf p cs

/-- Model of Python `l.count(p)`: number of non-overlapping occurrences of
`p` in `l`, scanning left to right and skipping past each match. -/
def countSub (p : List Char) : List Char → Nat
  | [] => 0
  | c :: cs =>
    if listIsPrefixOf p (c :: cs) then 1 + countSub p (cs.drop (p.length - 1))
    else countSub p cs
termination_by l => l.length
decreasing_by
  · simp only [List.length_cons, List.length_drop]; omega
  · simp only [List.length_cons]; omega

/-- Strip a literal token from the front of a list, or fail. -/
def dropTok : List Char → List Char → Option (List Char)
  | [], l => some l
  | _ :: _, [] => none
  | a :: as, b :: bs => if a = b then dropTok as bs else none

/-- The two quote characters accepted by the extraction regexes
(double quote, code 34, and single quote, code 39). -/
def isQuoteChar (c : Char) : Bool :=
  c = Char.ofNat 34 || c = Char.ofNat 39

/-- Model of the lazy dot-star capture closed by a quote (Python `re`,
no DOTALL): the shortest run of non-newline characters up to the next
quote of either kind.
Returns the captured characters and the rest of the input after the closing
quote; fails if a newline or the end of input comes first. -/
def scanCapture : List Char → Option (List Char × List Char)
  | [] => none
  | c :: cs =>
    if isQuoteChar c then some ([], cs)
    else if c = '\n' then none
    else
      match scanCapture cs with
      | some (cap, rest) => some (c :: cap, rest)
      | none => none

/-- Attempt, at the current position, to match a literal token followed by an
opening quote and a lazy capture closed by a quote — one alternative of the
print-literal regexes. -/
def matchLit (tok : List Char) (l : List Char) : Option (List Char × List Char) :=
  match dropTok tok l with
  | none => none
  | some r =>
    match r with
    | [] => none
    | q :: r2 => if isQuoteChar q then scanCapture r2 else none

/-- Try a list of token alternatives in order (regex alternation /
optional-group backtracking order). -/
def matchAlts (alts : List (List Char)) (l : List Char) : Option (List Char × List Char) :=
  match alts with
  | [] => none
  | t :: ts =>
    match matchLit t l with
    | some r => some r
    | none => matchAlts ts l

/-- Model of `re.findall` for the print-literal regexes: scan left to right;
at each position try the alternatives; on a match, emit the capture and
continue after the closing quote (non-overlapping); otherwise advance one
character.  `fuel` bounds the number of scan steps; each step consumes at
least one character, so `fuel = l.length` computes the exact findall. -/
def findallLit (alts : List (List Char)) : Nat → List Char → List (List Char)
  | 0, _ => []
  | _ + 1, [] => []
  | fuel + 1, c :: cs =>
    match matchAlts alts (c :: cs) with
    | some (cap, rest) => cap :: findallLit alts fuel rest
    | none => findallLit alts fuel cs

/-- Turn a list of captured literals into output text, one line each
(each Python `output += match + "\n"`). -/
def emitLines (ss : List (List Char)) : List Char :=
  (ss.map (fun s => s ++ ['\n'])).flatten

theorem dropTok_length {tok l r : List Char} (h : dropTok tok l = some r) :
    r.length ≤ l.length := by
  induction tok generalizing l with
  | nil =>
    simp only [dropTok, Option.some.injEq] at h
    simp [h]
  | cons a as ih =>
    cases l with
    | nil => simp [dropTok] at h
    | cons b bs =>
      simp only [dropTok] at h
      split at h
      · exact Nat.le_trans (ih h) (Nat.le_succ _)
      · exact absurd h (by simp)

theorem scanCapture_length {l cap rest : List Char}
    (h : scanCapture l = some (cap, rest)) : rest.length < l.length := by
  induction l generalizing cap rest with
  | nil => simp [scanCapture] at h
  | cons c cs ih =>
    simp only [scanCapture] at h
    split at h
    · cases h; simp
    · split at h
      · cases h
      · cases hc : scanCapture cs with
        | none => rw [hc] at h; cases h
        | some pr =>
          rw [hc] at h
          cases pr with
          | mk cap' rest' =>
            cases h
            exact Nat.lt_trans (ih hc) (by simp)

theorem matchLit_length {tok l cap rest : List Char}
    (h : matchLit tok l = some (cap, rest)) : rest.length < l.length := by
  simp only [matchLit] at h
  cases hd : dropTok tok l with
  | none => rw [hd] at h; cases h
  | some r =>
    rw [hd] at h
    cases r with
    | nil => cases h
    | cons q r2 =>
      simp only at h
      split at h
      · have h1 := scanCapture_length h
        have h2 := dropTok_length hd
        simp only [List.length_cons] at h2
        omega
      · cases h

theorem matchAlts_length {alts : List (List Char)} {l cap rest : List Char}
    (h : matchAlts alts l = some (cap, rest)) : rest.length < l.length := by
  induction alts with
  | nil => simp [matchAlts] at h
  | cons t ts ih =>
    simp only [matchAlts] at h
    cases hm : matchLit t l with
    | none => rw [hm] at h; exact ih h
    | some r => rw [hm] at h; cases h; exact matchLit_length hm

/-- The token scanned for by the Python branch condition `"print" in code`. -/
def printTok : List Char := "print".toList

/-- Token of the Python literal-extraction regex before the quote. -/
def printCallTok : List Char := "print(".toList

/-- The substring `print(\x27*\x27` tested by the Python pattern heuristic. -/
def starPrintTok : List Char := "print(\x27*\x27".toList

/-- The substring `print(\x27*\x27,` tested by the Python pattern heuristic. -/
def starPrintCommaTok : List Char := "print(\x27*\x27,".toList

/-- The substring `for` tested by the simulators and the scorer. -/
def forTok : List Char := "for".toList

/-- The substring `range` tested by the Python pattern heuristic. -/
def rangeTok : List Char := "range".toList

/-- The substring `*` tested by the fallback branches. -/
def starTok : List Char := "*".toList

/-- The substring `if` tested by the scorer. -/
def ifTok : List Char := "if".toList

/-- The token scanned for by the JavaScript branch condition. -/
def consoleLogTok : List Char := "console.log".toList

/-- Token of the JavaScript literal-extraction regex before the quote. -/
def consoleLogCallTok : List Char := "console.log(".toList

/-- The substring `console.log(\x27*\x27` tested by the JavaScript heuristic. -/
def starConsoleLogTok : List Char := "console.log(\x27*\x27".toList

/-- The substring `System.out.println` tested by the Java branch. -/
def sysOutPrintlnTok : List Char := "System.out.println".toList

/-- The substring `System.out.print` tested by the Java branch and scorer. -/
def sysOutPrintTok : List Char := "System.out.print".toList

/-- Python literal extraction (code_execution.py line 90): `re.findall` of
the pattern  print backslash-paren quote-class lazy-capture quote-class. -/
def pyExtract (code : List Char) : List (List Char) :=
  findallLit [printCallTok] code.length code

/-- JavaScript literal extraction (line 130): `re.findall` of the pattern
console.log open-paren quote-class lazy-capture quote-class. -/
def jsExtract (code : List Char) : List (List Char) :=
  findallLit [consoleLogCallTok] code.length code

/-- Java literal extraction (line 154): `re.findall` of the pattern
System.out.print, optional ln, open-paren quote-class lazy-capture
quote-class; the greedy optional group tries the ln alternative first. -/
def javaExtract (code : List Char) : List (List Char) :=
  findallLit ["System.out.println(".toList, "System.out.print(".toList] code.length code

/-- Model of Python code.split by newline (code_execution.py line 98). -/
def splitLines : List Char → List (List Char)
  | [] => [[]]
  | c :: cs =>
    if c = '\n' then [] :: splitLines cs
    else
      match splitLines cs with
      | [] => [[c]]
      | l :: ls => (c :: l) :: ls

/-- Whitespace class `\s` of Python `re` (ASCII part). -/
def isPySpace (c : Char) : Bool :=
  c = ' ' || c = '\t' || c = '\n' || c = '\r' || c = Char.ofNat 11 || c = Char.ofNat 12

/-- Numeric value of a nonempty digit string (Python `int(...)`). -/
def digitsToNat (ds : List Char) : Nat :=
  ds.foldl (fun a c => 10 * a + (c.toNat - 48)) 0

/-- Attempt to match the regex `n\s*=\s*(\d+)` at the current position:
the character `n`, optional whitespace, `=`, optional whitespace, then one
or more digits (the greedy runs collapse to drop/take-while). -/
def matchNAt (l : List Char) : Option Nat :=
  match l with
  | [] => none
  | c :: rest =>
    if c = 'n' then
      match rest.dropWhile isPySpace with
      | [] => none
      | e :: r2 =>
        if e = '=' then
          let ds := (r2.dropWhile isPySpace).takeWhile Char.isDigit
          if ds = [] then none else some (digitsToNat ds)
        else none
    else none

/-- Model of the search for the regex  n whitespace-run equals
whitespace-run digit-group  followed by
`int(n_match.group(1))` (code_execution.py lines 103-105): leftmost match. -/
def searchNAssign : List Char → Option Nat
  | [] => none
  | c :: cs =>
    match matchNAt (c :: cs) with
    | some n => some n
    | none => searchNAssign cs

/-- Model of `simulate_python_execution` (code_execution.py lines 82-122).
The output string is modelled as the list of its characters; each Python
`output += s + a newline` appends the chunk `s` and a newline.  The loop of
the source over the split lines breaks at the first line containing the
lone-star print substring, which is `List.find?`; its body runs once. -/
def simulate_python_execution (code : List Char) : List Char :=
  if listIsInfixOf printTok code then
    let base := emitLines (pyExtract code)
    if listIsInfixOf starPrintTok code || listIsInfixOf starPrintCommaTok code then
      if listIsInfixOf forTok code then
        match (splitLines code).find?
            (fun line => listIsInfixOf starPrintTok line || listIsInfixOf starPrintCommaTok line) with
        | some _ =>
          if listIsInfixOf rangeTok code then
            match searchNAssign code with
            | some n => base ++ (List.replicate n (List.replicate n '*' ++ ['\n'])).flatten
            | none => base ++ "Simulated pattern output\n".toList
          else base
        | none => base
      else base
    else base
  else if listIsInfixOf forTok code && listIsInfixOf starTok code then
    "Simulated pattern execution\n".toList
  else
    "Code executed successfully\n".toList

/-- Model of `simulate_javascript_execution` (code_execution.py lines 124-146). -/
def simulate_javascript_execution (code : List Char) : List Char :=
  if listIsInfixOf consoleLogTok code then
    let base := emitLines (jsExtract code)
    if listIsInfixOf starConsoleLogTok code then
      if listIsInfixOf forTok code then
        base ++ "Simulated JavaScript pattern output\n".toList
      else
        base ++ "*\n".toList
    else base
  else
    "JavaScript code executed\n".toList

/-- Model of `simulate_java_execution` (code_execution.py lines 148-167). -/
def simulate_java_execution (code : List Char) : List Char :=
  if listIsInfixOf sysOutPrintlnTok code || listIsInfixOf sysOutPrintTok code then
    let base := emitLines (javaExtract code)
    if listIsInfixOf sysOutPrintTok code && listIsInfixOf starTok code then
      base ++ "Simulated Java pattern output\n".toList
    else base
  else
    "Java code executed\n".toList

/-- The dictionary returned by `simulate_code_execution`
(code_execution.py lines 180-185). -/
structure ExecResult where
  output : List Char
  language : String
  execution_time : String
  status : String
deriving DecidableEq

/-- Model of `simulate_code_execution` (code_execution.py lines 169-185).
Every branch of the simulators is a total function, so in this embedding no
internal fault can occur; the `except` handlers of the source (which would
append `"Execution error: <message>"` to the output without touching the
status) are unreachable, and the returned status is the literal `"success"`
of line 184. -/
def simulate_code_execution (code : List Char) (language : String) : ExecResult :=
  let output :=
    if language = "python" then simulate_python_execution code
    else if language = "javascript" then simulate_javascript_execution code
    else if language = "java" then simulate_java_execution code
    else "Language \x27".toList ++ language.toList ++ "\x27 not supported for execution".toList
  { output := output
    language := language
    execution_time := "0.1s"
    status := "success" }

/-- The pydantic `Pattern` model (main.py lines 32-44). -/
structure Pattern where
  id : Int
  name : String
  category : String
  difficulty : String
  description : String
  preview : List String
  rows : Int
  popularity : Int
  completion_rate : Int
  formula : String
  loops : Int
  conditions : Int
deriving DecidableEq

/-- The fixed catalog returned by `get_sample_patterns` (main.py lines 255-412),
in table order. -/
def get_sample_patterns : List Pattern :=
  [ { id := 1, name := "Square Pattern (Solid)", category := "basic-star",
      difficulty := "easy", description := "A solid square filled with stars",
      preview := ["****", "****", "****", "****"], rows := 4, popularity := 95,
      completion_rate := 92, formula := "stars = n, spaces = 0",
      loops := 2, conditions := 0 },
    { id := 2, name := "Right Triangle Pattern", category := "basic-star",
      difficulty := "easy", description := "Stars forming a right triangle",
      preview := ["*", "**", "***", "****"], rows := 4, popularity := 98,
      completion_rate := 95, formula := "stars = i, spaces = 0",
      loops := 2, conditions := 0 },
    { id := 3, name := "Left Triangle Pattern", category := "basic-star",
      difficulty := "easy",
      description := "Stars aligned to the left forming triangle",
      preview := ["   *", "  **", " ***", "****"], rows := 4, popularity := 87,
      completion_rate := 89, formula := "stars = i, spaces = n-i",
      loops := 2, conditions := 0 },
    { id := 4, name := "Inverted Right Triangle", category := "basic-star",
      difficulty := "easy", description := "Upside-down right triangle",
      preview := ["****", "***", "**", "*"], rows := 4, popularity := 85,
      completion_rate := 88, formula := "stars = n-i+1, spaces = 0",
      loops := 2, conditions := 0 },
    { id := 5, name := "Isosceles Triangle", category := "basic-star",
      difficulty := "easy", description := "Centered triangle with equal sides",
      preview := ["  *  ", " *** ", "*****"], rows := 3, popularity := 91,
      completion_rate := 90, formula := "stars = 2*i+1, spaces = n-i-1",
      loops := 2, conditions := 0 },
    { id := 11, name := "Hollow Square", category := "hollow",
      difficulty := "medium", description := "Square with hollow interior",
      preview := ["****", "*  *", "*  *", "****"], rows := 4, popularity := 84,
      completion_rate := 76,
      formula := "stars = n (if first/last row/col), spaces = n-2 (middle)",
      loops := 2, conditions := 4 },
    { id := 31, name := "Diamond Pattern (Solid)", category := "diamond",
      difficulty := "medium", description := "Solid diamond shape",
      preview := ["  *  ", " *** ", "*****", " *** ", "  *  "], rows := 5,
      popularity := 89, completion_rate := 82,
      formula := "stars = 2*i+1 (upper), 2*(n-i-1)+1 (lower), spaces = n-i-1",
      loops := 2, conditions := 1 },
    { id := 32, name := "Hollow Diamond", category := "diamond",
      difficulty := "medium", description := "Diamond with hollow center",
      preview := ["  *  ", " * * ", "*   *", " * * ", "  *  "], rows := 5,
      popularity := 85, completion_rate := 76,
      formula := "stars = 1 (if first/last), spaces = n-i-1 + i-1 (middle)",
      loops := 2, conditions := 4 },
    { id := 41, name := "Number Triangle (1,2,3...)", category := "number",
      difficulty := "easy", description := "Triangle with sequential numbers",
      preview := ["1", "12", "123", "1234"], rows := 4, popularity := 92,
      completion_rate := 88, formula := "numbers = 1 to i",
      loops := 2, conditions := 0 },
    { id := 66, name := "Butterfly Pattern", category := "special",
      difficulty := "hard", description := "Butterfly wing pattern",
      preview := ["*    *", "**  **", "******", "**  **", "*    *"], rows := 5,
      popularity := 91, completion_rate := 67,
      formula := "stars = i+1 (left), 2*(n-i-1) (right), spaces = 2*(n-i-1)",
      loops := 2, conditions := 2 },
    { id := 69, name := "X Pattern (Cross)", category := "special",
      difficulty := "medium", description := "X or cross pattern",
      preview := ["*   *", " * * ", "  *  ", " * * ", "*   *"], rows := 5,
      popularity := 86, completion_rate := 78,
      formula := "stars = 1 (if i==j or i+j==n-1)",
      loops := 2, conditions := 2 } ]

/-- Model of the `GET /patterns` handler `get_patterns` (main.py lines 84-91):
the query parameters are accepted and ignored, the whole catalog is returned. -/
def get_patterns (_category : Option String) (_difficulty : Option String)
    (_limit : Int) : List Pattern :=
  get_sample_patterns

/-- Model of the lookup in `get_pattern` (main.py lines 93-100): the first
catalog record with the given id, `none` standing for the 404 NotFound path. -/
def get_pattern (pattern_id : Int) : Option Pattern :=
  get_sample_patterns.find? (fun p => decide (p.id = pattern_id))

/-- ASCII model of Python `str.lower()` on a character list. -/
def lowerL (l : List Char) : List Char := l.map Char.toLower

/-- Model of the name lookup of `generate_detailed_code` (main.py lines
170-179): first a case-insensitive exact match over the catalog, then a
case-insensitive substring match, `none` standing for the 404 NotFound path. -/
def find_pattern_by_name (pattern_name : List Char) : Option Pattern :=
  match get_sample_patterns.find?
      (fun p => decide (lowerL p.name.toList = lowerL pattern_name)) with
  | some p => some p
  | none =>
    get_sample_patterns.find?
      (fun p => listIsInfixOf (lowerL pattern_name) (lowerL p.name.toList))

/-- The print-producing check shared by scorer and feedback (main.py lines
496 and 573): any of the three print-call tokens occurs in the text. -/
def printAnyCheck (user_code : List Char) : Bool :=
  listIsInfixOf printTok user_code || listIsInfixOf consoleLogTok user_code ||
    listIsInfixOf sysOutPrintTok user_code

/-- Model of `calculate_correctness_score` (main.py lines 557-580); the float
weights are modelled as exact rationals, `pattern` may be `None` as in the
caller `get_code_feedback`. -/
def calculate_correctness_score (user_code : List Char) (pattern : Option Pattern) : ℚ :=
  if user_code = [] then 0
  else
    let s0 : ℚ := 0
    let s1 := if listIsInfixOf forTok user_code then s0 + 3/10 else s0
    let s2 :=
      match pattern with
      | some p => if 1 < p.loops ∧ 2 ≤ countSub forTok user_code then s1 + 3/10 else s1
      | none => s1
    let s3 := if printAnyCheck user_code then s2 + 2/10 else s2
    let s4 :=
      match pattern with
      | some p => if 0 < p.conditions ∧ listIsInfixOf ifTok user_code then s3 + 2/10 else s3
      | none => s3
    min 1 s4

/-- Model of `generate_code_feedback` (main.py lines 484-506); the non-ASCII
marker characters are the exact characters stored in the source file. -/
def generate_code_feedback (user_code : List Char) (pattern : Option Pattern) : String :=
  if user_code = [] then "Please write some code to get feedback!"
  else
    let p1 :=
      if listIsInfixOf forTok user_code then
        ["âœ… Good! You\x27re using loops."]
      else ["ðŸ’¡ Try using loops to iterate through rows."]
    let p2 := p1 ++
      (if printAnyCheck user_code then
        ["âœ… Great! You\x27re printing output."]
      else ["ðŸ’¡ Don\x27t forget to print the pattern!"])
    let p3 := p2 ++
      (match pattern with
       | some p =>
         if 1 < p.loops ∧ 2 ≤ countSub forTok user_code then
           ["âœ… Excellent! You\x27re using nested loops correctly."]
         else if 1 < p.loops then
           ["ðŸ’¡ This pattern needs nested loops."]
         else []
       | none => [])
    String.intercalate " " p3

/-- Model of `generate_code_suggestions` (main.py lines 508-526). -/
def generate_code_suggestions (user_code : List Char) (pattern : Option Pattern) :
    List String :=
  if user_code = [] then
    ["Start by creating a variable for the pattern size",
     "Use a for loop to iterate through rows"]
  else
    (if ¬ (listIsInfixOf rangeTok user_code = true) ∧ listIsInfixOf forTok user_code then
      ["Use range() function for loop iteration"]
    else []) ++
    (match pattern with
     | some p =>
       if 0 < p.conditions ∧ ¬ (listIsInfixOf ifTok user_code = true) then
         ["Add conditional statements for special cases"]
       else []
     | none => []) ++
    (if ¬ (listIsInfixOf printTok user_code = true) then
      ["Add print statements to display the pattern"]
    else [])

/-- Model of `generate_progressive_hints` (main.py lines 528-555).  The source
dereferences `pattern.rows` (line 534) and `pattern.loops` (line 544) without
guarding against `pattern` being `None`; those dereferences raise
`AttributeError`, modelled by `Except.error` carrying the Python message. -/
def generate_progressive_hints (pattern : Option Pattern) (user_code : List Char) :
    Except String (List String) :=
  if user_code = [] then
    match pattern with
    | none => Except.error "\x27NoneType\x27 object has no attribute \x27rows\x27"
    | some p =>
      Except.ok
        ["Start with a variable n = " ++ toString p.rows,
         "Create a loop from 0 to n-1",
         "Calculate spaces and stars for each row",
         "Print spaces, then stars, then newline"]
  else if ¬ (listIsInfixOf forTok user_code = true) then
    Except.ok
      ["Add a for loop to iterate through rows",
       "Use range() function for the loop"]
  else
    match pattern with
    | none => Except.error "\x27NoneType\x27 object has no attribute \x27loops\x27"
    | some p =>
      if (countSub forTok user_code : Int) < p.loops then
        Except.ok
          ["You need nested loops for this pattern",
           "Add an inner loop for columns"]
      else
        Except.ok
          ["Great progress! Now add the print statements",
           "Make sure to print newline after each row"]

/-- The pydantic response model of `/ai/code-feedback` (main.py lines 62-66). -/
structure CodeFeedbackResponse where
  feedback : String
  suggestions : List String
  correctness_score : ℚ
  hints : List String
deriving DecidableEq

/-- Model of the `/ai/code-feedback` handler `get_code_feedback` (main.py
lines 130-145): the pattern id is looked up with `None` fallback, then
feedback, suggestions, hints and score are computed; an uncaught Python
exception inside any of the helpers is modelled by `Except.error`. -/
def get_code_feedback (pattern_id : Int) (user_code : List Char) :
    Except String CodeFeedbackResponse :=
  let pattern := get_sample_patterns.find? (fun p => decide (p.id = pattern_id))
  let feedback := generate_code_feedback user_code pattern
  let suggestions := generate_code_suggestions user_code pattern
  match generate_progressive_hints pattern user_code with
  | Except.error e => Except.error e
  | Except.ok hints =>
    Except.ok
      { feedback := feedback
        suggestions := suggestions
        correctness_score := calculate_correctness_score user_code pattern
        hints := hints }

theorem pfx_nil_right {p : List Char} (h : listIsPrefixOf p [] = true) : p = [] := by
  cases p with
  | nil => rfl
  | cons a as => simp [listIsPrefixOf] at h

theorem pfx_length : ∀ {p l : List Char}, listIsPrefixOf p l = true → p.length ≤ l.length := by
  intro p
  induction p with
  | nil => intro l _; simp
  | cons a as ih =>
    intro l h
    cases l with
    | nil => simp [listIsPrefixOf] at h
    | cons b bs =>
      simp only [listIsPrefixOf, Bool.and_eq_true, decide_eq_true_eq] at h
      simpa using Nat.succ_le_succ (ih h.2)

theorem pfx_trans : ∀ {p q l : List Char}, listIsPrefixOf p q = true →
    listIsPrefixOf q l = true → listIsPrefixOf p l = true := by
  intro p
  induction p with
  | nil => intro q l _ _; rfl
  | cons a as ih =>
    intro q l h1 h2
    cases q with
    | nil => simp [listIsPrefixOf] at h1
    | cons b bs =>
      cases l with
      | nil => simp [listIsPrefixOf] at h2
      | cons c cs =>
        simp only [listIsPrefixOf, Bool.and_eq_true, decide_eq_true_eq] at h1 h2 ⊢
        exact ⟨h1.1.trans h2.1, ih h1.2 h2.2⟩

theorem pfx_append_right {e : List Char} : ∀ {p l : List Char},
    listIsPrefixOf p l = true → listIsPrefixOf p (l ++ e) = true := by
  intro p
  induction p with
  | nil => intro l _; rfl
  | cons a as ih =>
    intro l h
    cases l with
    | nil => simp [listIsPrefixOf] at h
    | cons b bs =>
      simp only [listIsPrefixOf, Bool.and_eq_true, decide_eq_true_eq,
        List.cons_append] at h ⊢
      exact ⟨h.1, ih h.2⟩

theorem pfx_append_stable {e : List Char} : ∀ {p l : List Char}, p.length ≤ l.length →
    listIsPrefixOf p (l ++ e) = listIsPrefixOf p l := by
  intro p
  induction p with
  | nil => intro l _; rfl
  | cons a as ih =>
    intro l h
    cases l with
    | nil => simp at h
    | cons b bs =>
      simp only [List.length_cons] at h
      simp only [List.cons_append, listIsPrefixOf, List.append_eq]
      rw [@ih bs (by omega)]

theorem infix_of_pfx {p l : List Char} (h : listIsPrefixOf p l = true) :
    listIsInfixOf p l = true := by
  cases l with
  | nil => exact h
  | cons c cs => simp only [listIsInfixOf, Bool.or_eq_true]; exact Or.inl h

theorem infix_nil_left : ∀ (l : List Char), listIsInfixOf [] l = true := by
  intro l
  cases l with
  | nil => rfl
  | cons c cs => simp only [listIsInfixOf, Bool.or_eq_true]; exact Or.inl rfl

theorem infix_append_right {e : List Char} : ∀ {p l : List Char},
    listIsInfixOf p l = true → listIsInfixOf p (l ++ e) = true := by
  intro p l
  induction l with
  | nil =>
    intro h
    have := pfx_nil_right h
    subst this
    exact infix_nil_left e
  | cons c cs ih =>
    intro h
    simp only [listIsInfixOf, Bool.or_eq_true, List.cons_append] at h ⊢
    cases h with
    | inl h => exact Or.inl (pfx_append_right h)
    | inr h => exact Or.inr (ih h)

theorem infix_of_pfx_of_infix : ∀ {p q l : List Char}, listIsPrefixOf p q = true →
    listIsInfixOf q l = true → listIsInfixOf p l = true := by
  intro p q l
  induction l with
  | nil =>
    intro h1 h2
    have := pfx_nil_right h2
    subst this
    have := pfx_nil_right h1
    subst this
    rfl
  | cons c cs ih =>
    intro h1 h2
    simp only [listIsInfixOf, Bool.or_eq_true] at h2 ⊢
    cases h2 with
    | inl h2 => exact Or.inl (pfx_trans h1 h2)
    | inr h2 => exact Or.inr (ih h1 h2)

theorem countSub_eq_zero_of_short {p : List Char} : ∀ {l : List Char},
    l.length < p.length → countSub p l = 0 := by
  intro l
  induction l with
  | nil => intro _; simp [countSub]
  | cons c cs ih =>
    intro h
    rw [countSub, if_neg]
    · exact ih (by simp only [List.length_cons] at h; omega)
    · intro hp
      have := pfx_length hp
      simp only [List.length_cons] at h this
      omega

theorem countSub_le_append (p e : List Char) : ∀ l, countSub p l ≤ countSub p (l ++ e) := by
  have main : ∀ n l, l.length ≤ n → countSub p l ≤ countSub p (l ++ e) := by
    intro n
    induction n with
    | zero =>
      intro l hl
      have : l = [] := by cases l with
        | nil => rfl
        | cons a as => simp at hl
      subst this
      simp [countSub]
    | succ n ih =>
      intro l hl
      cases l with
      | nil => simp [countSub]
      | cons c cs =>
        simp only [List.length_cons] at hl
        rw [List.cons_append, countSub, countSub]
        by_cases hfull : listIsPrefixOf p (c :: cs) = true
        · have hfull2 : listIsPrefixOf p (c :: (cs ++ e)) = true := by
            rw [← List.cons_append]
            exact pfx_append_right hfull
          rw [if_pos hfull, if_pos hfull2]
          have hlen : p.length - 1 ≤ cs.length := by
            have := pfx_length hfull
            simp only [List.length_cons] at this
            omega
          rw [List.drop_append_eq_append_drop, Nat.sub_eq_zero_of_le hlen,
            List.drop_zero]
          have hrec := ih (List.drop (p.length - 1) cs)
            (by simp only [List.length_drop]; omega)
          omega
        · rw [if_neg hfull]
          by_cases hfull2 : listIsPrefixOf p (c :: (cs ++ e)) = true
          · rw [if_pos hfull2]
            have hlong : cs.length + 1 < p.length := by
              by_contra hle
              push_neg at hle
              rw [← List.cons_append,
                pfx_append_stable (by simp only [List.length_cons]; omega)] at hfull2
              exact hfull hfull2
            have h0 : countSub p cs = 0 :=
              countSub_eq_zero_of_short (by omega)
            rw [h0]
            exact Nat.zero_le _
          · rw [if_neg hfull2]
            exact ih cs (by omega)
  intro l
  exact main l.length l (Nat.le_refl _)

theorem splitLines_ne_nil : ∀ (l : List Char), splitLines l ≠ [] := by
  intro l
  cases l with
  | nil => simp [splitLines]
  | cons c cs =>
    rw [splitLines]
    split
    · simp
    · split <;> simp

theorem pfx_head_splitLines : ∀ {p l : List Char}, '\n' ∉ p →
    listIsPrefixOf p l = true →
    listIsPrefixOf p ((splitLines l).headD []) = true := by
  intro p
  induction p with
  | nil => intro l _ _; rfl
  | cons a as ih =>
    intro l hnl h
    cases l with
    | nil => simp [listIsPrefixOf] at h
    | cons b bs =>
      simp only [listIsPrefixOf, Bool.and_eq_true, decide_eq_true_eq] at h
      obtain ⟨hab, hpre⟩ := h
      have hbnl : ¬ (b = '\n') := by
        intro hb
        have han : a = '\n' := hab.trans hb
        apply hnl
        rw [← han]
        exact List.mem_cons_self a as
      rw [splitLines, if_neg hbnl]
      cases hsb : splitLines bs with
      | nil => exact absurd hsb (splitLines_ne_nil bs)
      | cons m ms =>
        have := ih (fun hmem => hnl (List.mem_cons_of_mem _ hmem)) hpre
        rw [hsb] at this
        simp only [List.headD_cons] at this ⊢
        simp only [listIsPrefixOf, Bool.and_eq_true, decide_eq_true_eq]
        exact ⟨hab, this⟩

theorem infix_mem_splitLines {p : List Char} (hp : '\n' ∉ p) :
    ∀ {l : List Char}, listIsInfixOf p l = true →
    ∃ s ∈ splitLines l, listIsInfixOf p s = true := by
  intro l
  induction l with
  | nil =>
    intro h
    have := pfx_nil_right h
    subst this
    exact ⟨[], by simp [splitLines], rfl⟩
  | cons c cs ih =>
    intro h
    simp only [listIsInfixOf, Bool.or_eq_true] at h
    cases h with
    | inl h =>
      cases hsl : splitLines (c :: cs) with
      | nil => exact absurd hsl (splitLines_ne_nil _)
      | cons m ms =>
        refine ⟨m, by simp [hsl], ?_⟩
        have := pfx_head_splitLines hp h
        rw [hsl] at this
        exact infix_of_pfx this
    | inr h =>
      obtain ⟨s, hs, hinf⟩ := ih h
      by_cases hc : c = '\n'
      · subst hc
        rw [splitLines, if_pos rfl]
        exact ⟨s, List.mem_cons_of_mem _ hs, hinf⟩
      · rw [splitLines, if_neg hc]
        cases hsb : splitLines cs with
        | nil => exact absurd hsb (splitLines_ne_nil cs)
        | cons m ms =>
          rw [hsb] at hs
          cases hs with
          | head =>
            refine ⟨c :: s, List.mem_cons_self _ _, ?_⟩
            simp only [listIsInfixOf, Bool.or_eq_true]
            exact Or.inr hinf
          | tail _ hmem => exact ⟨s, List.mem_cons_of_mem _ hmem, hinf⟩

theorem dropTok_pfx : ∀ {t l r : List Char}, dropTok t l = some r →
    listIsPrefixOf t l = true := by
  intro t
  induction t with
  | nil => intro l r _; rfl
  | cons a as ih =>
    intro l r h
    cases l with
    | nil => simp [dropTok] at h
    | cons b bs =>
      simp only [dropTok] at h
      split at h
      · simp only [listIsPrefixOf, Bool.and_eq_true, decide_eq_true_eq]
        exact ⟨by assumption, ih h⟩
      · exact absurd h (by simp)

theorem scanCapture_no_nl : ∀ {l cap rest : List Char},
    scanCapture l = some (cap, rest) → '\n' ∉ cap := by
  intro l
  induction l with
  | nil => intro cap rest h; simp [scanCapture] at h
  | cons c cs ih =>
    intro cap rest h
    simp only [scanCapture] at h
    split at h
    · cases h; exact List.not_mem_nil _
    · split at h
      · cases h
      · cases hc : scanCapture cs with
        | none => rw [hc] at h; cases h
        | some pr =>
          rw [hc] at h
          cases pr with
          | mk cap' rest' =>
            cases h
            intro hmem
            cases hmem with
            | head => simp_all
            | tail _ hmem => exact ih hc hmem

theorem matchLit_no_nl {t l cap rest : List Char}
    (h : matchLit t l = some (cap, rest)) : '\n' ∉ cap := by
  simp only [matchLit] at h
  cases hd : dropTok t l with
  | none => rw [hd] at h; cases h
  | some r =>
    rw [hd] at h
    cases r with
    | nil => cases h
    | cons q r2 =>
      simp only at h
      split at h
      · exact scanCapture_no_nl h
      · cases h

theorem matchAlts_no_nl : ∀ {alts : List (List Char)} {l cap rest : List Char},
    matchAlts alts l = some (cap, rest) → '\n' ∉ cap := by
  intro alts
  induction alts with
  | nil => intro l cap rest h; simp [matchAlts] at h
  | cons t ts ih =>
    intro l cap rest h
    simp only [matchAlts] at h
    cases hm : matchLit t l with
    | none => rw [hm] at h; exact ih h
    | some r => rw [hm] at h; cases h; exact matchLit_no_nl hm

theorem findallLit_no_nl (alts : List (List Char)) : ∀ (fuel : Nat) (l cap : List Char),
    cap ∈ findallLit alts fuel l → '\n' ∉ cap := by
  intro fuel
  induction fuel with
  | zero => intro l cap h; simp [findallLit] at h
  | succ fuel ih =>
    intro l cap h
    cases l with
    | nil => simp [findallLit] at h
    | cons c cs =>
      rw [findallLit] at h
      cases hm : matchAlts alts (c :: cs) with
      | none => rw [hm] at h; exact ih cs cap h
      | some pr =>
        rw [hm] at h
        cases pr with
        | mk cap0 rest =>
          cases h with
          | head => exact matchAlts_no_nl hm
          | tail _ hmem => exact ih rest cap hmem

theorem matchAlts_some_ex {alts : List (List Char)} {l : List Char}
    {r : List Char × List Char} (h : matchAlts alts l = some r) :
    ∃ t ∈ alts, matchLit t l = some r := by
  induction alts with
  | nil => simp [matchAlts] at h
  | cons t ts ih =>
    simp only [matchAlts] at h
    cases hm : matchLit t l with
    | none =>
      rw [hm] at h
      obtain ⟨t0, ht0, hmt⟩ := ih h
      exact ⟨t0, List.mem_cons_of_mem _ ht0, hmt⟩
    | some r0 =>
      rw [hm] at h
      cases h
      exact ⟨t, List.mem_cons_self _ _, hm⟩

theorem matchLit_pfx {t l : List Char} {r : List Char × List Char}
    (h : matchLit t l = some r) : listIsPrefixOf t l = true := by
  simp only [matchLit] at h
  cases hd : dropTok t l with
  | none => rw [hd] at h; cases h
  | some r1 => exact dropTok_pfx hd

theorem findallLit_eq_nil {core : List Char} {alts : List (List Char)}
    (halts : ∀ t ∈ alts, listIsPrefixOf core t = true) :
    ∀ (fuel : Nat) (l : List Char), listIsInfixOf core l = false →
    findallLit alts fuel l = [] := by
  intro fuel
  induction fuel with
  | zero => intro l _; rfl
  | succ fuel ih =>
    intro l h
    cases l with
    | nil => rfl
    | cons c cs =>
      have hsplit : listIsPrefixOf core (c :: cs) = false ∧
          listIsInfixOf core cs = false := by
        have := h
        simp only [listIsInfixOf, Bool.or_eq_false_iff] at this
        exact this
      have hnone : matchAlts alts (c :: cs) = none := by
        cases hm : matchAlts alts (c :: cs) with
        | none => rfl
        | some r =>
          obtain ⟨t, ht, hmt⟩ := matchAlts_some_ex hm
          have : listIsPrefixOf core (c :: cs) = true :=
            pfx_trans (halts t ht) (matchLit_pfx hmt)
          rw [hsplit.1] at this
          cases this
      rw [findallLit, hnone]
      exact ih cs hsplit.2

/-- C10: for every value of the category, difficulty and limit query
parameters, `get_patterns` returns the entire fixed catalog of 11 pattern
records unchanged and in table order — the filters have no effect. -/
theorem C10_get_patterns_ignores_filters :
    ∀ (category difficulty : Option String) (limit : Int),
      get_patterns category difficulty limit = get_sample_patterns ∧
      (get_patterns category difficulty limit).length = 11 := by
  intro c d l
  exact ⟨rfl, rfl⟩

/-- C8: the ids of the catalog patterns are pairwise distinct, and looking a
catalog pattern up by its id with `get_pattern` (the first record whose id
matches) returns exactly that pattern. -/
theorem C8_ids_unique_and_roundtrip :
    (get_sample_patterns.map (fun p => p.id)).Nodup ∧
    get_sample_patterns.all (fun p => decide (get_pattern p.id = some p)) = true := by
  constructor
  · decide
  · decide

/-- C9: for the empty string as pattern name, the lookup of
`generate_detailed_code` does not return NotFound: the case-insensitive
substring fallback matches every catalog name, so the first catalog pattern,
Square Pattern (Solid) with id 1, is returned. -/
theorem C9_empty_name_matches_first :
    find_pattern_by_name [] = get_sample_patterns.head? ∧
    (find_pattern_by_name []).map (fun p => (p.id, p.name)) =
      some (1, "Square Pattern (Solid)") := by
  constructor
  · decide
  · decide

/-- C7: lookup by pattern name tries a case-insensitive exact match and then
case-insensitive substring containment in table order; looking up any catalog
pattern name in any letter case returns a record with the same name modulo
case; the unknown name Invalid Pattern gives the NotFound signal (`none`);
and a substring query returns the first containing record in table order. -/
theorem C7_name_lookup (P : Pattern) (hP : P ∈ get_sample_patterns)
    (q : List Char) (hq : lowerL q = lowerL P.name.toList) :
    (∃ R, find_pattern_by_name q = some R ∧
      lowerL R.name.toList = lowerL P.name.toList) ∧
    find_pattern_by_name ("Invalid Pattern".toList) = none ∧
    (find_pattern_by_name ("triangle".toList)).map (fun p => p.id) = some 2 := by
  refine ⟨?_, by decide, by decide⟩
  unfold find_pattern_by_name
  cases hf : get_sample_patterns.find?
      (fun p => decide (lowerL p.name.toList = lowerL q)) with
  | none =>
    exfalso
    rw [List.find?_eq_none] at hf
    have hcontra := hf P hP
    simp only [decide_eq_true_eq] at hcontra
    exact hcontra hq.symm
  | some R =>
    have hpred := List.find?_some hf
    simp only [decide_eq_true_eq] at hpred
    exact ⟨R, rfl, by rw [hpred, hq]⟩

/-- Witness for C7: the first catalog pattern looked up in upper case. -/
theorem C7_name_lookup_witness :
    ∃ R, find_pattern_by_name ("SQUARE PATTERN (SOLID)".toList) = some R ∧
      lowerL R.name.toList = lowerL ("Square Pattern (Solid)".toList) :=
  (C7_name_lookup
    { id := 1, name := "Square Pattern (Solid)", category := "basic-star",
      difficulty := "easy", description := "A solid square filled with stars",
      preview := ["****", "****", "****", "****"], rows := 4, popularity := 95,
      completion_rate := 92, formula := "stars = n, spaces = 0",
      loops := 2, conditions := 0 }
    (by decide) ("SQUARE PATTERN (SOLID)".toList) (by decide)).1

/-- The first catalog record (a convenient concrete pattern for witnesses). -/
def squarePattern : Pattern :=
  { id := 1, name := "Square Pattern (Solid)", category := "basic-star",
    difficulty := "easy", description := "A solid square filled with stars",
    preview := ["****", "****", "****", "****"], rows := 4, popularity := 95,
    completion_rate := 92, formula := "stars = n, spaces = 0",
    loops := 2, conditions := 0 }

theorem score_formula (user_code : List Char) (P : Pattern) (h : user_code ≠ []) :
    calculate_correctness_score user_code (some P) =
      min 1 ((if listIsInfixOf forTok user_code then (3/10 : ℚ) else 0) +
        (if 1 < P.loops ∧ 2 ≤ countSub forTok user_code then (3/10 : ℚ) else 0) +
        (if printAnyCheck user_code then (2/10 : ℚ) else 0) +
        (if 0 < P.conditions ∧ listIsInfixOf ifTok user_code then (2/10 : ℚ) else 0)) := by
  unfold calculate_correctness_score
  rw [if_neg h]
  simp only []
  split_ifs <;> norm_num

theorem score_nonneg (user_code : List Char) (pattern : Option Pattern) :
    0 ≤ calculate_correctness_score user_code pattern := by
  unfold calculate_correctness_score
  split
  · exact le_refl 0
  · cases pattern with
    | none => simp only []; split_ifs <;> norm_num
    | some p => simp only []; split_ifs <;> norm_num

theorem ite_weight_mono {c c' : Prop} [Decidable c] [Decidable c'] (w : ℚ)
    (hw : 0 ≤ w) (h : c → c') :
    (if c then w else 0) ≤ (if c' then w else 0) := by
  by_cases hc : c
  · rw [if_pos hc, if_pos (h hc)]
  · rw [if_neg hc]
    by_cases hc' : c'
    · rw [if_pos hc']; exact hw
    · rw [if_neg hc']

/-- C3: the correctness score of the empty submission is 0 for every pattern,
and for a non-empty submission the score is the sum, clipped to at most 1, of
the four independent additive checks of the rubric: 0.3 for the substring
for, 0.3 when the expected pattern needs more than one loop and the text
contains at least two non-overlapping occurrences of for, 0.2 for any of the
three print-call tokens, and 0.2 when the expected pattern has conditions and
the text contains the substring if.  (The sum of all weights is exactly 1, so
the clip also bounds the score into the unit interval from above.) -/
theorem C3_score_rubric (P : Pattern) (code : List Char) (h : code ≠ []) :
    calculate_correctness_score [] (some P) = 0 ∧
    calculate_correctness_score code (some P) =
      min 1 ((if listIsInfixOf forTok code then (3/10 : ℚ) else 0) +
        (if 1 < P.loops ∧ 2 ≤ countSub forTok code then (3/10 : ℚ) else 0) +
        (if (listIsInfixOf printTok code || listIsInfixOf consoleLogTok code ||
            listIsInfixOf sysOutPrintTok code) then (2/10 : ℚ) else 0) +
        (if 0 < P.conditions ∧ listIsInfixOf ifTok code then (2/10 : ℚ) else 0)) := by
  constructor
  · simp [calculate_correctness_score]
  · rw [score_formula code P h]
    rfl

/-- Witness for C3: the rubric evaluated at the submission consisting of the
single token for, against the first catalog pattern. -/
theorem C3_score_rubric_witness :
    calculate_correctness_score [] (some squarePattern) = 0 ∧
    calculate_correctness_score ("for".toList) (some squarePattern) =
      min 1 ((if listIsInfixOf forTok ("for".toList) then (3/10 : ℚ) else 0) +
        (if 1 < squarePattern.loops ∧ 2 ≤ countSub forTok ("for".toList) then (3/10 : ℚ) else 0) +
        (if (listIsInfixOf printTok ("for".toList) ||
            listIsInfixOf consoleLogTok ("for".toList) ||
            listIsInfixOf sysOutPrintTok ("for".toList)) then (2/10 : ℚ) else 0) +
        (if 0 < squarePattern.conditions ∧ listIsInfixOf ifTok ("for".toList) then (2/10 : ℚ) else 0)) :=
  C3_score_rubric squarePattern ("for".toList) (by decide)

/-- C6: the correctness score is monotonically non-decreasing under extending
the submission text on the right; in particular appending the token for to
any code string never decreases the score against any pattern. -/
theorem C6_score_monotone_append_for (P : Pattern) (code : List Char) :
    calculate_correctness_score code (some P) ≤
    calculate_correctness_score (code ++ forTok) (some P) := by
  by_cases hc : code = []
  · subst hc
    have h0 : calculate_correctness_score [] (some P) = 0 := by
      simp [calculate_correctness_score]
    rw [h0]
    exact score_nonneg _ _
  · have hc2 : code ++ forTok ≠ [] := by
      intro hcontra
      exact hc (List.append_eq_nil.mp hcontra).1
    rw [score_formula code P hc, score_formula (code ++ forTok) P hc2]
    apply min_le_min (le_refl 1)
    have m1 : (if listIsInfixOf forTok code then (3/10 : ℚ) else 0) ≤
        (if listIsInfixOf forTok (code ++ forTok) then (3/10 : ℚ) else 0) :=
      ite_weight_mono _ (by norm_num) (fun h => infix_append_right h)
    have m2 : (if 1 < P.loops ∧ 2 ≤ countSub forTok code then (3/10 : ℚ) else 0) ≤
        (if 1 < P.loops ∧ 2 ≤ countSub forTok (code ++ forTok) then (3/10 : ℚ) else 0) :=
      ite_weight_mono _ (by norm_num)
        (fun h => ⟨h.1, le_trans h.2 (countSub_le_append forTok forTok code)⟩)
    have m3 : (if printAnyCheck code then (2/10 : ℚ) else 0) ≤
        (if printAnyCheck (code ++ forTok) then (2/10 : ℚ) else 0) := by
      apply ite_weight_mono _ (by norm_num)
      intro h
      unfold printAnyCheck at h ⊢
      simp only [Bool.or_eq_true] at h ⊢
      rcases h with (h | h) | h
      · exact Or.inl (Or.inl (infix_append_right h))
      · exact Or.inl (Or.inr (infix_append_right h))
      · exact Or.inr (infix_append_right h)
    have m4 : (if 0 < P.conditions ∧ listIsInfixOf ifTok code then (2/10 : ℚ) else 0) ≤
        (if 0 < P.conditions ∧ listIsInfixOf ifTok (code ++ forTok) then (2/10 : ℚ) else 0) :=
      ite_weight_mono _ (by norm_num)
        (fun h => ⟨h.1, infix_append_right h.2⟩)
    exact add_le_add (add_le_add (add_le_add m1 m2) m3) m4

theorem pyExtract_eq_nil {code : List Char}
    (h : listIsInfixOf printTok code = false) : pyExtract code = [] := by
  apply findallLit_eq_nil ?_ code.length code h
  intro t ht
  simp only [List.mem_singleton] at ht
  subst ht
  decide

theorem jsExtract_eq_nil {code : List Char}
    (h : listIsInfixOf consoleLogTok code = false) : jsExtract code = [] := by
  apply findallLit_eq_nil ?_ code.length code h
  intro t ht
  simp only [List.mem_singleton] at ht
  subst ht
  decide

/-- C1: the Python and JavaScript simulators emit, first and in source order,
one output line per quoted string literal extracted from directly inside the
print-call token (the extracted literals contain no newline, so each is
exactly one line); in particular the Hello World scenarios produce exactly
that single output line with status success. -/
theorem C1_literal_extraction_lines :
    (∀ code : List Char, ∃ rest, simulate_python_execution code =
      emitLines (pyExtract code) ++ rest) ∧
    (∀ code : List Char, ∃ rest, simulate_javascript_execution code =
      emitLines (jsExtract code) ++ rest) ∧
    (∀ code : List Char,
      (pyExtract code).all (fun cap => decide ('\n' ∉ cap)) = true) ∧
    (∀ code : List Char,
      (jsExtract code).all (fun cap => decide ('\n' ∉ cap)) = true) ∧
    simulate_code_execution ("print(\x27Hello World\x27)".toList) "python" =
      { output := "Hello World\n".toList, language := "python",
        execution_time := "0.1s", status := "success" } ∧
    simulate_code_execution ("console.log(\x27Hello World\x27);".toList) "javascript" =
      { output := "Hello World\n".toList, language := "javascript",
        execution_time := "0.1s", status := "success" } := by
  refine ⟨?_, ?_, ?_, ?_, by decide, by decide⟩
  · intro code
    unfold simulate_python_execution
    by_cases h : listIsInfixOf printTok code = true
    · rw [if_pos h]
      simp only []
      by_cases h1 : (listIsInfixOf starPrintTok code ||
          listIsInfixOf starPrintCommaTok code) = true
      · rw [if_pos h1]
        by_cases h2 : listIsInfixOf forTok code = true
        · rw [if_pos h2]
          cases hf : (splitLines code).find? (fun line =>
              listIsInfixOf starPrintTok line ||
              listIsInfixOf starPrintCommaTok line) with
          | none => exact ⟨[], (List.append_nil _).symm⟩
          | some w =>
            by_cases h3 : listIsInfixOf rangeTok code = true
            · rw [if_pos h3]
              cases hn : searchNAssign code with
              | some n => exact ⟨_, rfl⟩
              | none => exact ⟨_, rfl⟩
            · rw [if_neg h3]
              exact ⟨[], (List.append_nil _).symm⟩
        · rw [if_neg h2]
          exact ⟨[], (List.append_nil _).symm⟩
      · rw [if_neg h1]
        exact ⟨[], (List.append_nil _).symm⟩
    · rw [if_neg h]
      rw [pyExtract_eq_nil (by simpa using h)]
      exact ⟨_, rfl⟩
  · intro code
    unfold simulate_javascript_execution
    by_cases h : listIsInfixOf consoleLogTok code = true
    · rw [if_pos h]
      simp only []
      by_cases h1 : listIsInfixOf starConsoleLogTok code = true
      · rw [if_pos h1]
        by_cases h2 : listIsInfixOf forTok code = true
        · rw [if_pos h2]; exact ⟨_, rfl⟩
        · rw [if_neg h2]; exact ⟨_, rfl⟩
      · rw [if_neg h1]
        exact ⟨[], (List.append_nil _).symm⟩
    · rw [if_neg h]
      rw [jsExtract_eq_nil (by simpa using h)]
      exact ⟨_, rfl⟩
  · intro code
    rw [List.all_eq_true]
    intro cap hcap
    exact decide_eq_true (findallLit_no_nl [printCallTok] code.length code cap hcap)
  · intro code
    rw [List.all_eq_true]
    intro cap hcap
    exact decide_eq_true (findallLit_no_nl [consoleLogCallTok] code.length code cap hcap)

/-- The nested-loop star-pattern scenario input of the specification. -/
def patternScenarioCode : List Char :=
  "n = 4\nfor i in range(n):\n for j in range(n):\n  print(\x27*\x27, end=\x27\x27)\n print()".toList

/-- C2 counterexample: on the scenario input, the simulated output is not the
claimed four lines of four stars — the generic literal extraction first emits
the line consisting of the single captured star, so the output is five lines. -/
theorem C2_counterexample :
    simulate_python_execution patternScenarioCode ≠
      "****\n****\n****\n****\n".toList ∧
    simulate_python_execution patternScenarioCode =
      "*\n****\n****\n****\n****\n".toList := by
  constructor
  · decide
  · decide

/-- C2 as amended: for every Python code string containing the substring for,
the lone-star print substring (print, open paren, quote, star, quote) and the
substring range, the simulator searches the text for the first assignment of
an integer to n; if one is found with value n it emits — after the one line
per extracted print literal — exactly n lines of n stars each, and otherwise
it emits (after those lines) the single placeholder line
Simulated pattern output. -/
theorem C2_pattern_heuristic (code : List Char)
    (h1 : listIsInfixOf forTok code = true)
    (h2 : listIsInfixOf starPrintTok code = true)
    (h3 : listIsInfixOf rangeTok code = true) :
    (∀ n, searchNAssign code = some n →
      simulate_python_execution code =
        emitLines (pyExtract code) ++
          (List.replicate n (List.replicate n '*' ++ ['\n'])).flatten) ∧
    (searchNAssign code = none →
      simulate_python_execution code =
        emitLines (pyExtract code) ++ "Simulated pattern output\n".toList) := by
  have hprint : listIsInfixOf printTok code = true :=
    infix_of_pfx_of_infix (by decide) h2
  have hstar : (listIsInfixOf starPrintTok code ||
      listIsInfixOf starPrintCommaTok code) = true := by
    rw [h2]
    rfl
  have hfind : ∃ w, (splitLines code).find? (fun line =>
      listIsInfixOf starPrintTok line ||
      listIsInfixOf starPrintCommaTok line) = some w := by
    obtain ⟨s, hs, hinf⟩ := infix_mem_splitLines (by decide) h2
    cases hf : (splitLines code).find? (fun line =>
        listIsInfixOf starPrintTok line ||
        listIsInfixOf starPrintCommaTok line) with
    | none =>
      exfalso
      rw [List.find?_eq_none] at hf
      apply hf s hs
      rw [hinf]
      rfl
    | some w => exact ⟨w, rfl⟩
  obtain ⟨w, hw⟩ := hfind
  unfold simulate_python_execution
  rw [if_pos hprint]
  simp only []
  rw [if_pos hstar, if_pos h1, hw, if_pos h3]
  constructor
  · intro n hn
    rw [hn]
  · intro hn
    rw [hn]

/-- Witness for C2 as amended: the scenario input has the assignment n = 4
and yields the extracted-literal line followed by four lines of four stars. -/
theorem C2_pattern_heuristic_witness :
    simulate_python_execution patternScenarioCode =
      emitLines (pyExtract patternScenarioCode) ++
        (List.replicate 4 (List.replicate 4 '*' ++ ['\n'])).flatten :=
  (C2_pattern_heuristic patternScenarioCode (by decide) (by decide) (by decide)).1
    4 (by decide)

/-- C4: for every code string and each of the three supported languages, the
simulator is a total function — in this embedding every operation it performs
is total, so no internal fault can arise and nothing escapes its boundary —
and it always returns the well-formed result dictionary: the output of the
language-specific simulator, the echoed language, the fixed execution time
and the status field success.  (The except handlers of the source, which
would append the line Execution error with the fault message to the output
without modifying the status field, are unreachable, so the fault clause of
the claim is vacuous: no reachable path produces a status other than
success.) -/
theorem C4_simulator_never_raises (code : List Char) (language : String)
    (h : language = "python" ∨ language = "javascript" ∨ language = "java") :
    (simulate_code_execution code language).status = "success" ∧
    (simulate_code_execution code language).language = language ∧
    (simulate_code_execution code language).execution_time = "0.1s" ∧
    (simulate_code_execution code language).output =
      (if language = "python" then simulate_python_execution code
       else if language = "javascript" then simulate_javascript_execution code
       else simulate_java_execution code) := by
  rcases h with h | h | h <;> subst h <;> exact ⟨rfl, rfl, rfl, rfl⟩

/-- Witness for C4: the Python Hello scenario. -/
theorem C4_simulator_never_raises_witness :
    (simulate_code_execution ("print(\x27hi\x27)".toList) "python").status = "success" ∧
    (simulate_code_execution ("print(\x27hi\x27)".toList) "python").language = "python" ∧
    (simulate_code_execution ("print(\x27hi\x27)".toList) "python").execution_time = "0.1s" ∧
    (simulate_code_execution ("print(\x27hi\x27)".toList) "python").output =
      (if ("python" : String) = "python" then
        simulate_python_execution ("print(\x27hi\x27)".toList)
       else if ("python" : String) = "javascript" then
        simulate_javascript_execution ("print(\x27hi\x27)".toList)
       else simulate_java_execution ("print(\x27hi\x27)".toList)) :=
  C4_simulator_never_raises ("print(\x27hi\x27)".toList) "python" (Or.inl rfl)

/-- C5: the code-feedback operation crashes instead of degrading gracefully
when the pattern id matches no catalog record and the submission is empty:
`generate_progressive_hints` dereferences the attribute rows of None and an
AttributeError escapes (and likewise the attribute loops for a non-empty
submission containing for).  For a catalog id, the empty submission is indeed
scored 0 with non-empty starter hints and no error, as the claim states. -/
theorem C5_feedback_none_crash :
    get_code_feedback 999 [] =
      Except.error "\x27NoneType\x27 object has no attribute \x27rows\x27" ∧
    get_code_feedback 999 ("for".toList) =
      Except.error "\x27NoneType\x27 object has no attribute \x27loops\x27" ∧
    (∃ r, get_code_feedback 1 [] = Except.ok r ∧
      r.correctness_score = 0 ∧ r.hints ≠ []) := by
  refine ⟨rfl, rfl, ⟨_, rfl, rfl, by decide⟩⟩
